import Mathlib

/-!
Verification of the numeric planning engine of `si5351-experiments.c`
(fventuri/si5351-experiments).

Shallow embedding conventions:
* C `double` values are modelled as exact rationals (`ℚ`); every arithmetic
  operation of the source (`modf`, `fabs`, `/`, `*`, comparisons) is exact on `ℚ`.
* C `uint32_t` values are modelled as `ℕ` with an explicit `% 2^32` wherever the
  source performs `uint32_t` arithmetic or casts a `double` to `uint32_t`.
* The C `for`/`while` loops are modelled by structurally recursive functions.
  The outer loop of `rational_approximation` is literally bounded by 100 in the
  source; the other loops get an explicit iteration budget ("fuel") that
  provably exceeds the number of iterations the source loop can perform
  (see the accompanying lemmas), so the fuel never runs out.
* `ℚ` division by zero yields 0 (Lean's convention).  The only place a zero
  denominator can reach a division is `hm / km` with `km = 0` after `uint32_t`
  wrap-around; there the C code computes `±inf`/`NaN`, for which both
  `d < delta` and the Lean comparison `|0 - f0| = f0 < delta` are false, so the
  two semantics agree on the only observable effect (the candidate is never
  taken as the new best).
-/

namespace Si5351

/-- `2^32`, the modulus of `uint32_t` arithmetic. -/
def U32 : ℕ := 4294967296

/-- `const double epsilon = 1e-5;` in `rational_approximation`. -/
def epsilon : ℚ := 1 / 100000

/-- The running "best so far" of `rational_approximation`: the variables
`delta`, `*b`, `*c` of the source, plus a ghost field `exam` recording every
pair `(hm, km)` whose error `d` the source actually computes and compares
(i.e. the candidates reached by the semiconvergent scan before its
`km > max_denominator` break).  The ghost field has no effect on the computed
result; it only lets us state the minimality property. -/
structure RABest where
  delta : ℚ
  b : ℕ
  c : ℕ
  exam : List (ℕ × ℕ)
  deriving DecidableEq

/-- Full loop state of `rational_approximation`: the remainder `f`, the best so
far, the convergent pairs `h[0], h[1], k[0], k[1]`, and a ghost counter of
executed outer iterations. -/
structure RAState where
  f : ℚ
  best : RABest
  h0 : ℕ
  h1 : ℕ
  k0 : ℕ
  k1 : ℕ
  steps : ℕ
  deriving DecidableEq

/-- Absolute error of the candidate `p = (numerator, denominator)` against the
fractional part `f0`: the `d = fabs((double)hm / (double)km - f0)` of the
source. -/
def errQ (f0 : ℚ) (p : ℕ × ℕ) : ℚ := |(p.1 : ℚ) / (p.2 : ℚ) - f0|

/-- The inner semiconvergent scan of `rational_approximation`:

    for(uint32_t m = (an + 1) / 2; m <= an; ++m){
        uint32_t hm = m * h[1] + h[0];
        uint32_t km = m * k[1] + k[0];
        if(km > max_denominator){ break; }
        double d = fabs((double) hm / (double) km - f0);
        if(d < delta){ delta = d; *b = hm; *c = km; }
    }

`m` is the current scan value, `cnt` the number of remaining values of `m`
(the caller passes `cnt = an + 1 - (an+1)/2`, the exact iteration count of the
C `for` loop when it does not break). -/
def innerScan (f0 : ℚ) (maxDen : ℕ) (h0 h1 k0 k1 : ℕ) : ℕ → ℕ → RABest → RABest
  | _, 0, acc => acc
  | m, cnt + 1, acc =>
    let hm := (m * h1 + h0) % U32
    let km := (m * k1 + k0) % U32
    if maxDen < km then acc
    else
      let d := |(hm : ℚ) / (km : ℚ) - f0|
      if d < acc.delta then
        innerScan f0 maxDen h0 h1 k0 k1 (m + 1) cnt ⟨d, hm, km, (hm, km) :: acc.exam⟩
      else
        innerScan f0 maxDen h0 h1 k0 k1 (m + 1) cnt { acc with exam := (hm, km) :: acc.exam }

/-- The outer continued-fraction loop of `rational_approximation`
(`for(int i = 0; i < 100; ++i)`); `fuel` counts the remaining iterations, the
break `if(f <= epsilon) break;` returns the state unchanged.  One iteration:

    f = modf(1.0 / f, &anf);  uint32_t an = (uint32_t) anf;
    <inner semiconvergent scan>
    uint32_t hn = an * h[1] + h[0];  uint32_t kn = an * k[1] + k[0];
    h[0] = h[1]; h[1] = hn;  k[0] = k[1]; k[1] = kn;

(`f > epsilon > 0` whenever the body runs, so `1/f` is an ordinary positive
division and `modf` splits it into `⌊1/f⌋` and `1/f - ⌊1/f⌋`; moreover
`1/f < 100000 < 2^32`, so the `uint32_t` cast of `an` never actually wraps.) -/
def raLoop (f0 : ℚ) (maxDen : ℕ) : ℕ → RAState → RAState
  | 0, s => s
  | fuel + 1, s =>
    if s.f ≤ epsilon then s
    else
      let r := 1 / s.f
      let an := (⌊r⌋).toNat % U32
      let m0 := (an + 1) / 2
      let best := innerScan f0 maxDen s.h0 s.h1 s.k0 s.k1 m0 (an + 1 - m0) s.best
      let hn := (an * s.h1 + s.h0) % U32
      let kn := (an * s.k1 + s.k0) % U32
      raLoop f0 maxDen fuel ⟨r - ⌊r⌋, best, s.h1, hn, s.k1, kn, s.steps + 1⟩

/-- Initial state of `rational_approximation` after

    double f0 = modf(value, &af);
    *b = 0; *c = 1;
    double f = f0;  double delta = f0;
    uint32_t h[] = {1, 0};  uint32_t k[] = {0, 1};
-/
def raInit (f0 : ℚ) : RAState := ⟨f0, ⟨f0, 0, 1, []⟩, 1, 0, 0, 1, 0⟩

/-- The state at the end of `rational_approximation`'s outer loop.
`Int.fract value = value - ⌊value⌋` is the fractional part produced by
`modf(value, &af)` (the two agree for the `value ≥ 0` inputs of every claim). -/
def raFinal (value : ℚ) (maxDen : ℕ) : RAState :=
  raLoop (Int.fract value) maxDen 100 (raInit (Int.fract value))

/-- `rational_approximation(value, max_denominator, &a, &b, &c)`: returns the
written-back triple `(a, b, c)`.  `*a = (uint32_t) af` is the integer part of
`modf` cast to `uint32_t`, i.e. `⌊value⌋ % 2^32` for `value ≥ 0`. -/
def rational_approximation (value : ℚ) (maxDen : ℕ) : ℕ × ℕ × ℕ :=
  ((⌊value⌋).toNat % U32, (raFinal value maxDen).best.b, (raFinal value maxDen).best.c)

/-- Ghost observation: all candidate pairs whose error the source computed. -/
def raExam (value : ℚ) (maxDen : ℕ) : List (ℕ × ℕ) := (raFinal value maxDen).best.exam

/-- Ghost observation: number of outer expansion steps executed. -/
def raSteps (value : ℚ) (maxDen : ℕ) : ℕ := (raFinal value maxDen).steps

/-! ### Invariants of the rational-approximation loops -/

lemma errQ_zero_num (f0 : ℚ) (hf0 : 0 ≤ f0) (k : ℕ) : errQ f0 (0, k) = f0 := by
  simp [errQ, abs_of_nonneg hf0]

lemma errQ_zero_den (f0 : ℚ) (hf0 : 0 ≤ f0) (h : ℕ) : errQ f0 (h, 0) = f0 := by
  simp [errQ, abs_of_nonneg hf0]

/-- Invariant carried by the best-so-far accumulator through both loops of
`rational_approximation`.  `f0` is the fractional part being approximated and
`B` is any bound with `f0 + B ≤ 1` (the callers use `B = f0` when
`f0 ≤ 1/2` and `B = 1 - f0` once the pair `(1,1)` has been examined, which
happens in the very first inner iteration when `f0 > 1/2`). -/
def InvRA (f0 B : ℚ) (maxDen : ℕ) (acc : RABest) : Prop :=
  acc.delta = errQ f0 (acc.b, acc.c) ∧
  acc.delta ≤ B ∧
  acc.delta ≤ f0 ∧
  ((acc.b = 0 ∧ acc.c = 1) ∨ (0 < acc.b ∧ acc.b ≤ acc.c ∧ acc.c ≤ maxDen)) ∧
  ∀ p ∈ acc.exam, acc.delta ≤ errQ f0 p

lemma innerScan_inv (f0 B : ℚ) (maxDen : ℕ) (h0 h1 k0 k1 : ℕ)
    (hf0 : 0 ≤ f0) (hB : f0 + B ≤ 1) :
    ∀ cnt m acc, InvRA f0 B maxDen acc →
      InvRA f0 B maxDen (innerScan f0 maxDen h0 h1 k0 k1 m cnt acc) := by
  intro cnt
  induction cnt with
  | zero => intro m acc h; simpa [innerScan] using h
  | succ n ih =>
    intro m acc hacc
    simp only [innerScan]
    by_cases hkm : maxDen < (m * k1 + k0) % U32
    · rw [if_pos hkm]; exact hacc
    · rw [if_neg hkm]
      obtain ⟨he, hBle, hf0le, hgood, hex⟩ := hacc
      by_cases hd : |(((m * h1 + h0) % U32 : ℕ) : ℚ) / (((m * k1 + k0) % U32 : ℕ) : ℚ) - f0|
          < acc.delta
      · rw [if_pos hd]
        apply ih
        have hkle : (m * k1 + k0) % U32 ≤ maxDen := Nat.le_of_not_lt hkm
        have hkpos : 0 < (m * k1 + k0) % U32 := by
          rcases Nat.eq_zero_or_pos ((m * k1 + k0) % U32) with h0' | h0'
          · exfalso
            rw [h0'] at hd
            have heq : |(((m * h1 + h0) % U32 : ℕ) : ℚ) / ((0 : ℕ) : ℚ) - f0| = f0 := by
              simp [abs_of_nonneg hf0]
            rw [heq] at hd
            exact absurd (lt_of_lt_of_le hd hf0le) (lt_irrefl _)
          · exact h0'
        have hmpos : 0 < (m * h1 + h0) % U32 := by
          rcases Nat.eq_zero_or_pos ((m * h1 + h0) % U32) with h0' | h0'
          · exfalso
            rw [h0'] at hd
            have heq : |((0 : ℕ) : ℚ) / (((m * k1 + k0) % U32 : ℕ) : ℚ) - f0| = f0 := by
              simp [abs_of_nonneg hf0]
            rw [heq] at hd
            exact absurd (lt_of_lt_of_le hd hf0le) (lt_irrefl _)
          · exact h0'
        have hmlek : (m * h1 + h0) % U32 ≤ (m * k1 + k0) % U32 := by
          have h1' : (((m * h1 + h0) % U32 : ℕ) : ℚ) / (((m * k1 + k0) % U32 : ℕ) : ℚ) - f0
              < B := lt_of_le_of_lt (le_abs_self _) (lt_of_lt_of_le hd hBle)
          have h2' : (((m * h1 + h0) % U32 : ℕ) : ℚ) / (((m * k1 + k0) % U32 : ℕ) : ℚ)
              < 1 := by linarith
          have h3' : (0 : ℚ) < (((m * k1 + k0) % U32 : ℕ) : ℚ) := by exact_mod_cast hkpos
          have h4' : (((m * h1 + h0) % U32 : ℕ) : ℚ) < (((m * k1 + k0) % U32 : ℕ) : ℚ) :=
            (div_lt_one h3').mp h2'
          exact le_of_lt (by exact_mod_cast h4')
        refine ⟨rfl, le_of_lt (lt_of_lt_of_le hd hBle), le_of_lt (lt_of_lt_of_le hd hf0le),
          Or.inr ⟨hmpos, hmlek, hkle⟩, ?_⟩
        intro p hp
        rcases List.mem_cons.mp hp with hp' | hp'
        · rw [hp']; exact le_refl _
        · exact le_of_lt (lt_of_lt_of_le hd (hex p hp'))
      · rw [if_neg hd]
        apply ih
        refine ⟨he, hBle, hf0le, hgood, ?_⟩
        intro p hp
        rcases List.mem_cons.mp hp with hp' | hp'
        · rw [hp']; exact le_of_not_lt hd
        · exact hex p hp'

lemma raLoop_inv (f0 B : ℚ) (maxDen : ℕ) (hf0 : 0 ≤ f0) (hB : f0 + B ≤ 1) :
    ∀ fuel s, InvRA f0 B maxDen s.best →
      InvRA f0 B maxDen (raLoop f0 maxDen fuel s).best := by
  intro fuel
  induction fuel with
  | zero => intro s h; simpa [raLoop] using h
  | succ n ih =>
    intro s h
    by_cases hf : s.f ≤ epsilon
    · simp only [raLoop]; rw [if_pos hf]; exact h
    · simp only [raLoop]; rw [if_neg hf]
      apply ih
      exact innerScan_inv f0 B maxDen s.h0 s.h1 s.k0 s.k1 hf0 hB _ _ s.best h

/-- If the remainder is already at or below `epsilon`, the outer loop exits at
once, leaving the state untouched. -/
lemma raLoop_of_le (f0 : ℚ) (maxDen : ℕ) (fuel : ℕ) (s : RAState)
    (h : s.f ≤ epsilon) : raLoop f0 maxDen fuel s = s := by
  cases fuel with
  | zero => simp [raLoop]
  | succ n => simp only [raLoop]; rw [if_pos h]

/-- The ghost step counter grows by at most the available fuel. -/
lemma raLoop_steps (f0 : ℚ) (maxDen : ℕ) :
    ∀ fuel s, (raLoop f0 maxDen fuel s).steps ≤ s.steps + fuel := by
  intro fuel
  induction fuel with
  | zero => intro s; simp [raLoop]
  | succ n ih =>
    intro s
    by_cases hf : s.f ≤ epsilon
    · simp only [raLoop]; rw [if_pos hf]; omega
    · simp only [raLoop]; rw [if_neg hf]
      calc (raLoop f0 maxDen n _).steps ≤ s.steps + 1 + n := ih _
        _ ≤ s.steps + (n + 1) := by omega

/-- The seed accumulator satisfies the invariant with `B = f0`
(usable whenever `2 * f0 ≤ 1`). -/
lemma raInit_inv (f0 : ℚ) (maxDen : ℕ) (hf0 : 0 ≤ f0) :
    InvRA f0 f0 maxDen (raInit f0).best := by
  refine ⟨?_, le_refl _, le_refl _, Or.inl ⟨rfl, rfl⟩, ?_⟩
  · show f0 = errQ f0 (0, 1)
    rw [errQ_zero_num f0 hf0]
  · intro p hp
    simp [raInit] at hp

/-- When `1/2 < f0 < 1`, the first outer iteration is forced: the expansion
term is `an = 1`, the inner scan examines exactly the pair `(1, 1)` and adopts
it (its error `1 - f0` beats the initial `delta = f0`). -/
lemma raLoop_first_step (f0 : ℚ) (maxDen : ℕ) (hD : 1 ≤ maxDen)
    (hgt : 1/2 < f0) (hlt : f0 < 1) (fuel : ℕ) :
    raLoop f0 maxDen (fuel + 1) (raInit f0) =
      raLoop f0 maxDen fuel ⟨1/f0 - 1, ⟨1 - f0, 1, 1, [(1, 1)]⟩, 0, 1, 1, 1, 1⟩ := by
  have hf0pos : 0 < f0 := by linarith
  have heps : ¬ (raInit f0).f ≤ epsilon := by
    show ¬ f0 ≤ 1/100000
    intro hcon
    linarith
  have hr1 : (1 : ℚ) ≤ 1 / f0 := by
    rw [le_div_iff₀ hf0pos]; linarith
  have hr2 : 1 / f0 < 2 := by
    rw [div_lt_iff₀ hf0pos]; linarith
  have hfloor : ⌊(1 : ℚ) / f0⌋ = 1 := by
    rw [Int.floor_eq_iff]
    constructor
    · exact_mod_cast hr1
    · push_cast; linarith
  have h11 : ((1 : ℕ) : ℚ) / ((1 : ℕ) : ℚ) = 1 := by norm_num
  have habs : |((1 : ℕ) : ℚ) / ((1 : ℕ) : ℚ) - f0| = 1 - f0 := by
    rw [h11, abs_of_nonneg (by linarith : (0 : ℚ) ≤ 1 - f0)]
  have hscan : innerScan f0 maxDen 1 0 0 1 1 1 ⟨f0, 0, 1, []⟩ = ⟨1 - f0, 1, 1, [(1, 1)]⟩ := by
    show innerScan f0 maxDen 1 0 0 1 1 (0 + 1) ⟨f0, 0, 1, []⟩ = ⟨1 - f0, 1, 1, [(1, 1)]⟩
    simp only [innerScan]
    norm_num [U32]
    split_ifs with hc1 hc2
    · omega
    · rw [abs_of_nonneg (by linarith : (0 : ℚ) ≤ 1 - f0)]
    · exfalso
      rw [abs_of_nonneg (by linarith : (0 : ℚ) ≤ 1 - f0)] at hc2
      exact hc2 (by linarith)
  simp only [raLoop]
  rw [if_neg heps]
  show raLoop f0 maxDen fuel _ = raLoop f0 maxDen fuel _
  congr 1
  rw [show (raInit f0).f = f0 from rfl]
  rw [hfloor]
  rw [show (raInit f0).h0 = 1 from rfl, show (raInit f0).h1 = 0 from rfl,
    show (raInit f0).k0 = 0 from rfl, show (raInit f0).k1 = 1 from rfl,
    show (raInit f0).best = (⟨f0, 0, 1, []⟩ : RABest) from rfl,
    show (raInit f0).steps = 0 from rfl]
  norm_num [U32]
  rw [hscan]
  rfl

/-- Master invariant of `rational_approximation`: the final best-so-far
accumulator is error-tracking, no worse than the default `(0,1)`, structurally
valid, and minimal over every examined candidate. -/
lemma raFinal_inv (value : ℚ) (maxDen : ℕ) (hD : 1 ≤ maxDen) :
    InvRA (Int.fract value) (min (Int.fract value) (1 - Int.fract value)) maxDen
      (raFinal value maxDen).best := by
  have hf0 : 0 ≤ Int.fract value := Int.fract_nonneg value
  have hf1 : Int.fract value < 1 := Int.fract_lt_one value
  rcases le_or_lt (Int.fract value) (1/2) with hle | hgt
  · have hmin : min (Int.fract value) (1 - Int.fract value) = Int.fract value :=
      min_eq_left (by linarith)
    rw [hmin]
    exact raLoop_inv (Int.fract value) (Int.fract value) maxDen hf0 (by linarith) 100
      (raInit (Int.fract value)) (raInit_inv (Int.fract value) maxDen hf0)
  · have hmin : min (Int.fract value) (1 - Int.fract value) = 1 - Int.fract value :=
      min_eq_right (by linarith)
    rw [hmin]
    show InvRA _ _ maxDen (raLoop (Int.fract value) maxDen 100 (raInit (Int.fract value))).best
    rw [show (100 : ℕ) = 99 + 1 from rfl,
      raLoop_first_step (Int.fract value) maxDen hD hgt hf1 99]
    apply raLoop_inv (Int.fract value) (1 - Int.fract value) maxDen hf0 (by linarith) 99
    refine ⟨?_, le_refl _, by linarith, Or.inr ⟨by norm_num, le_refl _, hD⟩, ?_⟩
    · show 1 - Int.fract value = errQ (Int.fract value) (1, 1)
      rw [errQ]
      push_cast
      rw [div_one, abs_of_nonneg (by linarith : (0 : ℚ) ≤ 1 - Int.fract value)]
    · intro p hp
      have hp' : p = (1, 1) := by simpa using hp
      rw [hp', errQ]
      push_cast
      rw [div_one, abs_of_nonneg (by linarith : (0 : ℚ) ≤ 1 - Int.fract value)]

/-! ### Claims about rational_approximation -/

/-- C1 (counterexample): at `value = 199999/200000`, `max_denominator = 1048575`,
the source returns `(a, b, c) = (0, 1, 1)`: here `b = 1` and `c = 1`, so neither
`b = 0 ∧ c = 1` nor `0 < b < c` holds, refuting the claimed invariant.  (The
very first semiconvergent examined is `1/1`, its error `1/200000` beats the
initial `delta = f0`, and the next remainder `1/199999` falls below the `1e-5`
epsilon cut-off, so `1/1` is never improved on.) -/
theorem ra_range_counterexample :
    rational_approximation (199999/200000 : ℚ) 1048575 = (0, 1, 1) ∧
    ¬ ((((1 : ℕ) = 0) ∧ ((1 : ℕ) = 1)) ∨ ((0 < (1 : ℕ)) ∧ ((1 : ℕ) < (1 : ℕ)))) :=
  ⟨by with_unfolding_all decide, by decide⟩

/-- C1 (amended: `0 < b ≤ c` in place of `0 < b < c`; `b = c = 1` does occur,
see `ra_range_counterexample`): for every `value ≥ 0` and every
`max_denominator ≥ 1`, `rational_approximation` returns a triple `(a, b, c)`
with `1 ≤ c ≤ max_denominator` and either (`b = 0` and `c = 1`) or `0 < b ≤ c`. -/
theorem ra_range (value : ℚ) (maxDen : ℕ) (hv : 0 ≤ value) (hD : 1 ≤ maxDen) :
    1 ≤ (rational_approximation value maxDen).2.2 ∧
    (rational_approximation value maxDen).2.2 ≤ maxDen ∧
    (((rational_approximation value maxDen).2.1 = 0 ∧
        (rational_approximation value maxDen).2.2 = 1) ∨
      (0 < (rational_approximation value maxDen).2.1 ∧
        (rational_approximation value maxDen).2.1 ≤ (rational_approximation value maxDen).2.2)) := by
  obtain ⟨-, -, -, hgood, -⟩ := raFinal_inv value maxDen hD
  have hb : (rational_approximation value maxDen).2.1 = (raFinal value maxDen).best.b := rfl
  have hc : (rational_approximation value maxDen).2.2 = (raFinal value maxDen).best.c := rfl
  rw [hb, hc]
  rcases hgood with ⟨h1, h2⟩ | ⟨h1, h2, h3⟩
  · exact ⟨by omega, by omega, Or.inl ⟨h1, h2⟩⟩
  · exact ⟨by omega, h3, Or.inr ⟨h1, h2⟩⟩

/-- C1 (witness): the amended statement applied at `value = 3/5`, `D = 5`. -/
theorem ra_range_witness :
    1 ≤ (rational_approximation (3/5 : ℚ) 5).2.2 ∧
    (rational_approximation (3/5 : ℚ) 5).2.2 ≤ 5 ∧
    (((rational_approximation (3/5 : ℚ) 5).2.1 = 0 ∧
        (rational_approximation (3/5 : ℚ) 5).2.2 = 1) ∨
      (0 < (rational_approximation (3/5 : ℚ) 5).2.1 ∧
        (rational_approximation (3/5 : ℚ) 5).2.1 ≤ (rational_approximation (3/5 : ℚ) 5).2.2)) :=
  ra_range (3/5) 5 (by norm_num) (by norm_num)

/-- C2: the `(b, c)` returned by `rational_approximation` minimizes
`|b/c - fract value|` over the default `(0, 1)` and every candidate pair
`(b', c')` (with `c' ≤ max_denominator`) whose error the semiconvergent scan
actually evaluated during the (at most 100) expansion steps. -/
theorem ra_minimal (value : ℚ) (maxDen : ℕ) (hv : 0 ≤ value) (hD : 1 ≤ maxDen) :
    errQ (Int.fract value) (rational_approximation value maxDen).2 ≤
        errQ (Int.fract value) (0, 1) ∧
    ∀ p ∈ raExam value maxDen,
      errQ (Int.fract value) (rational_approximation value maxDen).2 ≤
        errQ (Int.fract value) p := by
  obtain ⟨he, -, hf0le, -, hex⟩ := raFinal_inv value maxDen hD
  have h2 : (rational_approximation value maxDen).2 =
      ((raFinal value maxDen).best.b, (raFinal value maxDen).best.c) := rfl
  rw [h2, ← he]
  constructor
  · rw [errQ_zero_num (Int.fract value) (Int.fract_nonneg value)]
    exact hf0le
  · exact hex

/-- C2 (witness): minimality applied at `value = 3/4`, `D = 7`. -/
theorem ra_minimal_witness :
    errQ (Int.fract (3/4 : ℚ)) (rational_approximation (3/4 : ℚ) 7).2 ≤
        errQ (Int.fract (3/4 : ℚ)) (0, 1) ∧
    ∀ p ∈ raExam (3/4 : ℚ) 7,
      errQ (Int.fract (3/4 : ℚ)) (rational_approximation (3/4 : ℚ) 7).2 ≤
        errQ (Int.fract (3/4 : ℚ)) p :=
  ra_minimal (3/4) 7 (by norm_num) (by norm_num)

/-- C6: for every `value ≥ 0` and every `max_denominator`,
`rational_approximation` terminates and returns a triple; the outer
continued-fraction loop executes at most 100 steps (each inner scan is a
bounded `for` loop and the model is a total function, so no input produces an
error outcome). -/
theorem ra_terminates (value : ℚ) (maxDen : ℕ) (hv : 0 ≤ value) :
    raSteps value maxDen ≤ 100 ∧
    ∃ a b c, rational_approximation value maxDen = (a, b, c) := by
  constructor
  · have h := raLoop_steps (Int.fract value) maxDen 100 (raInit (Int.fract value))
    simpa [raSteps, raFinal, raInit] using h
  · exact ⟨_, _, _, rfl⟩

/-- C6 (witness): termination applied at `value = 1/3`, `D = 10`. -/
theorem ra_terminates_witness :
    raSteps (1/3 : ℚ) 10 ≤ 100 ∧ ∃ a b c, rational_approximation (1/3 : ℚ) 10 = (a, b, c) :=
  ra_terminates (1/3) 10 (by norm_num)

/-- C7 (counterexample): at `value = 2^32` (an exactly representable `double`)
the `*a = (uint32_t) af` cast wraps, so the returned `a` is `0`, not the
claimed `value` itself. -/
theorem ra_integer_counterexample :
    rational_approximation (4294967296 : ℚ) 1 = (0, 0, 1) ∧ (0 : ℕ) ≠ 4294967296 :=
  ⟨by with_unfolding_all decide, by decide⟩

/-- C7 (amended: restricted to integers below `2^32`, where the `uint32_t`
cast of the integer part is lossless): for every natural `n < 2^32` and every
`max_denominator ≥ 1`, `rational_approximation n` returns `(n, 0, 1)`. -/
theorem ra_integer (n : ℕ) (maxDen : ℕ) (hn : n < 4294967296) (hD : 1 ≤ maxDen) :
    rational_approximation ((n : ℚ)) maxDen = (n, 0, 1) := by
  have hfr : Int.fract ((n : ℚ)) = 0 := Int.fract_natCast n
  have hstop : raFinal (n : ℚ) maxDen = raInit 0 := by
    rw [raFinal, hfr]
    exact raLoop_of_le 0 maxDen 100 (raInit 0)
      (by show (0 : ℚ) ≤ epsilon; rw [epsilon]; norm_num)
  have hmod : (⌊((n : ℚ))⌋).toNat % U32 = n := by
    rw [Int.floor_natCast, Int.toNat_natCast]
    exact Nat.mod_eq_of_lt hn
  show ((⌊((n : ℚ))⌋).toNat % U32, (raFinal (n : ℚ) maxDen).best.b,
      (raFinal (n : ℚ) maxDen).best.c) = (n, 0, 1)
  rw [hstop, hmod]
  rfl

/-- C7 (witness): the amended statement applied at `n = 7`, `D = 3`. -/
theorem ra_integer_witness : rational_approximation ((7 : ℕ) : ℚ) 3 = (7, 0, 1) :=
  ra_integer 7 3 (by norm_num) (by norm_num)

/-- C8: `rational_approximation` is a pure function of `(value,
max_denominator)`: equal argument pairs always produce the identical triple
(the model reads no state other than its two arguments). -/
theorem ra_deterministic (v1 v2 : ℚ) (D1 D2 : ℕ) (hv : v1 = v2) (hD : D1 = D2) :
    rational_approximation v1 D1 = rational_approximation v2 D2 := by
  rw [hv, hD]

/-- C8 (witness): determinism applied at `value = 5/2`, `D = 7`. -/
theorem ra_deterministic_witness :
    rational_approximation (5/2 : ℚ) 7 = rational_approximation (5/2 : ℚ) 7 :=
  ra_deterministic (5/2) (5/2) 7 7 rfl rfl

/-- C9: a positive fractional part at or below the `1e-5` epsilon threshold is
silently dropped: the outer loop breaks before its first expansion step, so
`b = 0`, `c = 1` and only the bare integer part survives — for every
`max_denominator`, even one large enough to represent the fraction exactly. -/
theorem ra_small_fraction (value : ℚ) (maxDen : ℕ)
    (hpos : 0 < Int.fract value) (hle : Int.fract value ≤ 1/100000) :
    (rational_approximation value maxDen).2.1 = 0 ∧
    (rational_approximation value maxDen).2.2 = 1 := by
  have hstop : raFinal value maxDen = raInit (Int.fract value) := by
    rw [raFinal]
    exact raLoop_of_le _ maxDen 100 _
      (by show Int.fract value ≤ epsilon; rw [epsilon]; exact hle)
  constructor
  · show (raFinal value maxDen).best.b = 0
    rw [hstop]
    rfl
  · show (raFinal value maxDen).best.c = 1
    rw [hstop]
    rfl

/-- C9 (witness): applied at `value = 1/200000` (which `b/c = 1/200000` with
`c = 200000 ≤ D = 1048575` would represent exactly). -/
theorem ra_small_fraction_witness :
    (rational_approximation (1/200000 : ℚ) 1048575).2.1 = 0 ∧
    (rational_approximation (1/200000 : ℚ) 1048575).2.2 = 1 := by
  have h : Int.fract (1/200000 : ℚ) = 1/200000 :=
    Int.fract_eq_self.mpr ⟨by norm_num, by norm_num⟩
  exact ra_small_fraction (1/200000) 1048575 (by rw [h]; norm_num) (by rw [h]; norm_num)

/-! ### The main program: constants, input conditioning, scenario A -/

/-- `static const double SI5351_MIN_VCO_FREQ = 600e6;` -/
def SI5351_MIN_VCO_FREQ : ℚ := 600000000

/-- `static const double SI5351_MAX_VCO_FREQ = 1000e6;` -/
def SI5351_MAX_VCO_FREQ : ℚ := 1000000000

/-- `#define MAX_CLOCKS 3` -/
def MAX_CLOCKS : ℕ := 3

/-- The argument-count validation at the top of `main`:
`if (argc > MAX_CLOCKS + 2) { ...; return EXIT_FAILURE; }` — the only check
performed on the argument count. -/
def tooManyArgs (argc : ℕ) : Bool := decide (MAX_CLOCKS + 2 < argc)

/-- `int nclks = argc - 2;` (natural subtraction: `argc ≥ 2` in every run that
reaches this line with `argv[1]` present). -/
def nclks (argc : ℕ) : ℕ := argc - 2

/-- Contents of the `clks` array after the parse loop
`for (int i = 2; i < argc; i++) sscanf(argv[i], "%lf", &clks[i-2]);`:
slot `i` was written iff `i + 2 < argc`; otherwise it keeps its original,
uninitialized content, modelled by the explicit `uninit` valuation. -/
def clksAfterParse (argv : ℕ → ℚ) (argc : ℕ) (uninit : ℕ → ℚ) (i : ℕ) : ℚ :=
  if i + 2 < argc then argv (i + 2) else uninit i

/-- The value read by `double r_clk0 = clks[0];` (line 61): slot 0 of the
array, read unconditionally, whether or not any clock argument was parsed. -/
def clk0Input (argv : ℕ → ℚ) (argc : ℕ) (uninit : ℕ → ℚ) : ℚ :=
  clksAfterParse argv argc uninit 0

/-- The R-divider conditioning loop
`while (r_clk0 < 1e6 && rdiv <= 7) { r_clk0 *= 2.0; rdiv += 1; }`,
modelled with an explicit iteration budget `fuel`.  Since `rdiv` increases by
1 per iteration and the guard requires `rdiv ≤ 7`, the loop body runs at most
8 times; `rdivGo_guard_false` below certifies that any `fuel` with
`8 ≤ rdiv + fuel` reaches the loop's real exit (guard false). -/
def rdivGo : ℕ → ℚ → ℕ → ℕ × ℚ
  | 0, clk, rdiv => (rdiv, clk)
  | fuel + 1, clk, rdiv =>
    if clk < 1000000 ∧ rdiv ≤ 7 then rdivGo fuel (2 * clk) (rdiv + 1) else (rdiv, clk)

/-- Final `(rdiv, r_clk0)` of the conditioning loop started from `rdiv = 0`. -/
def conditionClk0 (clk : ℚ) : ℕ × ℚ := rdivGo 9 clk 0

/-- The fatal check after the loop: `if (r_clk0 < 1e6) { ...; return EXIT_FAILURE; }`. -/
def clk0TooLow (clk : ℚ) : Bool := decide ((conditionClk0 clk).2 < 1000000)

/-- With budget at least `8 - rdiv + 1`, `rdivGo` exits with the loop guard
false, i.e. the fuel never cuts the `while` loop short. -/
lemma rdivGo_guard_false :
    ∀ fuel clk rdiv, 8 ≤ rdiv + fuel →
      ¬ ((rdivGo fuel clk rdiv).2 < 1000000 ∧ (rdivGo fuel clk rdiv).1 ≤ 7) := by
  intro fuel
  induction fuel with
  | zero =>
    intro clk rdiv h
    simp only [rdivGo]
    omega
  | succ n ih =>
    intro clk rdiv h
    simp only [rdivGo]
    by_cases hg : clk < 1000000 ∧ rdiv ≤ 7
    · rw [if_pos hg]
      exact ih (2 * clk) (rdiv + 1) (by omega)
    · rw [if_neg hg]
      simpa using hg

/-- One searched candidate of scenario A: the even output divider `ms`, its
implied VCO frequency `f_vco = r_clk0 * ms`, the required feedback ratio
`fb = f_vco / xtal`, and whether the candidate was rejected by
`if (feedback_ms < 15 || feedback_ms > 90) { ...; output_ms -= 2; continue; }`.
(The rest of the loop body — the `rational_approximation` call on `fb`, the
report lines, and the secondary-clock loop — is straight-line code that never
alters the loop control or these fields, so it is not modelled here.) -/
structure PlanStep where
  ms : ℕ
  fvco : ℚ
  fb : ℚ
  rejected : Bool
  deriving DecidableEq

/-- The scenario A candidate loop (`while (1) { ... }`, lines 85-149): break
when `output_ms < 4 || f_vco < SI5351_MIN_VCO_FREQ`, otherwise record the
candidate and continue with `output_ms - 2` (both the reject path and the
emit path end in the same decrement by 2).  `fuel` is an explicit iteration
budget; `ms` shrinks by 2 per iteration, so `fuel = ms + 1` at the top-level
entry point `scenarioA` is provably enough (the spec lemmas below carry the
sufficiency hypothesis `ms < 2 * fuel`). -/
def scenarioA_loopF (xtal r_clk0 : ℚ) : ℕ → ℕ → List PlanStep
  | 0, _ => []
  | fuel + 1, ms =>
    if ms < 4 ∨ r_clk0 * (ms : ℚ) < SI5351_MIN_VCO_FREQ then []
    else
      ⟨ms, r_clk0 * (ms : ℚ), r_clk0 * (ms : ℚ) / xtal,
        decide (r_clk0 * (ms : ℚ) / xtal < 15 ∨ 90 < r_clk0 * (ms : ℚ) / xtal)⟩ ::
        scenarioA_loopF xtal r_clk0 fuel (ms - 2)

/-- Scenario A loop entered at candidate `ms`. -/
def scenarioA_loop (xtal r_clk0 : ℚ) (ms : ℕ) : List PlanStep :=
  scenarioA_loopF xtal r_clk0 (ms + 1) ms

/-- `(uint32_t)(SI5351_MAX_VCO_FREQ / r_clk0)` (line 77). -/
def vcoQuot (r_clk0 : ℚ) : ℕ := (⌊SI5351_MAX_VCO_FREQ / r_clk0⌋).toNat % U32

/-- The initial output divider: `output_ms -= output_ms % 2;` applied to
`vcoQuot` (lines 77-78), i.e. the quotient rounded down to even. -/
def initialOutputMS (r_clk0 : ℚ) : ℕ := vcoQuot r_clk0 - vcoQuot r_clk0 % 2

/-- The full scenario A search, from the initial candidate. -/
def scenarioA (xtal r_clk0 : ℚ) : List PlanStep :=
  scenarioA_loop xtal r_clk0 (initialOutputMS r_clk0)

/-- Structure of the scenario A candidate walk, for any even entry candidate
`ms ≥ 2` and enough fuel: the recorded candidates descend from `ms` in steps
of exactly 2, are all even, and all have implied VCO at or above the floor,
while the first candidate not recorded has implied VCO strictly below the
floor.  The hypothesis `r * 2 < SI5351_MIN_VCO_FREQ` holds whenever the
initial candidate was at least 4 (see `scenarioA_candidates`). -/
lemma scenarioA_loopF_spec (xtal r : ℚ) (h2r : r * 2 < SI5351_MIN_VCO_FREQ) :
    ∀ fuel ms, ms < 2 * fuel → Even ms → 2 ≤ ms →
      (∀ i (hi : i < (scenarioA_loopF xtal r fuel ms).length),
          ((scenarioA_loopF xtal r fuel ms).get ⟨i, hi⟩).ms = ms - 2 * i ∧
          Even ((scenarioA_loopF xtal r fuel ms).get ⟨i, hi⟩).ms ∧
          SI5351_MIN_VCO_FREQ ≤ r * (((scenarioA_loopF xtal r fuel ms).get ⟨i, hi⟩).ms : ℚ)) ∧
      r * ((ms - 2 * (scenarioA_loopF xtal r fuel ms).length : ℕ) : ℚ) < SI5351_MIN_VCO_FREQ ∧
      2 * (scenarioA_loopF xtal r fuel ms).length ≤ ms := by
  intro fuel
  induction fuel with
  | zero => intro ms h _ _; omega
  | succ n ih =>
    intro ms hms heven h2
    have heven' : ms % 2 = 0 := Nat.even_iff.mp heven
    simp only [scenarioA_loopF]
    by_cases hguard : ms < 4 ∨ r * (ms : ℚ) < SI5351_MIN_VCO_FREQ
    · rw [if_pos hguard]
      refine ⟨?_, ?_, by simp⟩
      · intro i hi; simp at hi
      · simp only [List.length_nil, Nat.mul_zero, Nat.sub_zero]
        rcases hguard with h4 | hvco
        · have hms2 : ms = 2 := by omega
          rw [hms2]
          push_cast
          linarith
        · exact hvco
    · rw [if_neg hguard]
      push_neg at hguard
      obtain ⟨h4, hvco⟩ := hguard
      have ihs := ih (ms - 2) (by omega) (Nat.even_iff.mpr (by omega)) (by omega)
      obtain ⟨ihget, ihbreak, ihlen⟩ := ihs
      refine ⟨?_, ?_, ?_⟩
      · intro i hi
        cases i with
        | zero =>
          refine ⟨by simp, by simpa using heven, by simpa using hvco⟩
        | succ j =>
          have hj : j < (scenarioA_loopF xtal r n (ms - 2)).length := by
            simpa using hi
          have hg := ihget j hj
          refine ⟨?_, ?_, ?_⟩
          · show ((scenarioA_loopF xtal r n (ms - 2)).get ⟨j, hj⟩).ms = ms - 2 * (j + 1)
            rw [hg.1]
            omega
          · exact hg.2.1
          · exact hg.2.2
      · show r * ((ms - 2 * ((scenarioA_loopF xtal r n (ms - 2)).length + 1) : ℕ) : ℚ) <
          SI5351_MIN_VCO_FREQ
        have harith : ms - 2 * ((scenarioA_loopF xtal r n (ms - 2)).length + 1) =
            (ms - 2) - 2 * (scenarioA_loopF xtal r n (ms - 2)).length := by omega
        rw [harith]
        exact ihbreak
      · simp only [List.length_cons]
        omega

/-- Every step recorded by the scenario A loop carries the feedback ratio
`fb = f_vco / xtal` and the rejection flag of the source's band test
`feedback_ms < 15 || feedback_ms > 90`. -/
lemma scenarioA_loopF_band (xtal r : ℚ) :
    ∀ fuel ms st, st ∈ scenarioA_loopF xtal r fuel ms →
      st.fb = r * (st.ms : ℚ) / xtal ∧
      (st.rejected = true ↔ (st.fb < 15 ∨ 90 < st.fb)) := by
  intro fuel
  induction fuel with
  | zero => intro ms st h; simp [scenarioA_loopF] at h
  | succ n ih =>
    intro ms st h
    simp only [scenarioA_loopF] at h
    by_cases hguard : ms < 4 ∨ r * (ms : ℚ) < SI5351_MIN_VCO_FREQ
    · rw [if_pos hguard] at h; simp at h
    · rw [if_neg hguard] at h
      rcases List.mem_cons.mp h with h' | h'
      · subst h'
        exact ⟨rfl, by simp⟩
      · exact ih (ms - 2) st h'

/-- C3: in scenario A, the initial candidate is
`floor(VCO_max / pre-divided primary target)` rounded down to even; the
recorded candidates descend in steps of exactly 2 (hence all are even), every
recorded candidate's implied VCO `r_clk0 * ms` is at least the 600 MHz floor,
the first non-recorded candidate's implied VCO is below the floor, and the
walk is finite (at most `ms/2` steps; the model is a total function).
Hypotheses: `r_clk0 ≥ 1 MHz` is the input conditioner's postcondition on
every non-fatal run, and `4 ≤ initialOutputMS` is the scenario entry check of
lines 79-82. -/
theorem scenarioA_candidates (xtal r : ℚ) (hr : (1000000 : ℚ) ≤ r)
    (h4 : 4 ≤ initialOutputMS r) :
    Even (initialOutputMS r) ∧
    initialOutputMS r ≤ vcoQuot r ∧
    vcoQuot r < initialOutputMS r + 2 ∧
    (∀ i (hi : i < (scenarioA xtal r).length),
        ((scenarioA xtal r).get ⟨i, hi⟩).ms = initialOutputMS r - 2 * i ∧
        Even ((scenarioA xtal r).get ⟨i, hi⟩).ms ∧
        SI5351_MIN_VCO_FREQ ≤ r * (((scenarioA xtal r).get ⟨i, hi⟩).ms : ℚ)) ∧
    r * ((initialOutputMS r - 2 * (scenarioA xtal r).length : ℕ) : ℚ) < SI5351_MIN_VCO_FREQ ∧
    2 * (scenarioA xtal r).length ≤ initialOutputMS r := by
  have hrpos : (0 : ℚ) < r := by linarith
  have hquot : vcoQuot r = (⌊SI5351_MAX_VCO_FREQ / r⌋).toNat := by
    rw [vcoQuot]
    apply Nat.mod_eq_of_lt
    have hle : SI5351_MAX_VCO_FREQ / r ≤ 1000 := by
      rw [div_le_iff₀ hrpos, SI5351_MAX_VCO_FREQ]
      linarith
    have hfl : ⌊SI5351_MAX_VCO_FREQ / r⌋ ≤ 1000 := by
      have h1 : ⌊SI5351_MAX_VCO_FREQ / r⌋ ≤ ⌊(1000 : ℚ)⌋ := Int.floor_le_floor hle
      simpa using h1
    rw [U32]
    omega
  have hfloor4 : (4 : ℚ) ≤ SI5351_MAX_VCO_FREQ / r := by
    have h1 : 4 ≤ vcoQuot r := le_trans h4 (Nat.sub_le _ _)
    rw [hquot] at h1
    have h2 : (4 : ℤ) ≤ ⌊SI5351_MAX_VCO_FREQ / r⌋ := by omega
    exact_mod_cast Int.le_floor.mp h2
  have h2r : r * 2 < SI5351_MIN_VCO_FREQ := by
    rw [le_div_iff₀ hrpos] at hfloor4
    rw [SI5351_MIN_VCO_FREQ]
    rw [SI5351_MAX_VCO_FREQ] at hfloor4
    linarith
  have heven : Even (initialOutputMS r) := by
    rw [initialOutputMS]
    exact Nat.even_iff.mpr (by omega)
  have hspec := scenarioA_loopF_spec xtal r h2r (initialOutputMS r + 1) (initialOutputMS r)
    (by omega) heven (by omega)
  exact ⟨heven, Nat.sub_le _ _, by rw [initialOutputMS]; omega, hspec.1, hspec.2.1, hspec.2.2⟩

/-- C3 (witness): applied at `xtal = 25 MHz`, `r_clk0 = 100 MHz`
(initial candidate 10; candidates 10, 8, 6 emitted; VCO for 4 is 400 MHz,
below the floor). -/
theorem scenarioA_candidates_witness :
    Even (initialOutputMS 100000000) ∧
    initialOutputMS 100000000 ≤ vcoQuot 100000000 ∧
    vcoQuot 100000000 < initialOutputMS 100000000 + 2 ∧
    (∀ i (hi : i < (scenarioA 25000000 100000000).length),
        ((scenarioA 25000000 100000000).get ⟨i, hi⟩).ms = initialOutputMS 100000000 - 2 * i ∧
        Even ((scenarioA 25000000 100000000).get ⟨i, hi⟩).ms ∧
        SI5351_MIN_VCO_FREQ ≤
          100000000 * (((scenarioA 25000000 100000000).get ⟨i, hi⟩).ms : ℚ)) ∧
    100000000 * ((initialOutputMS 100000000 - 2 * (scenarioA 25000000 100000000).length : ℕ) : ℚ)
        < SI5351_MIN_VCO_FREQ ∧
    2 * (scenarioA 25000000 100000000).length ≤ initialOutputMS 100000000 :=
  scenarioA_candidates 25000000 100000000 (by norm_num) (by with_unfolding_all decide)

/-- C4 (counterexample): with pre-divided reference `xtal = 40 MHz` and
pre-divided primary target `r_clk0 = 155 MHz`, the second candidate
`output_ms = 4` is reached (initial candidate 6), its implied VCO is 620 MHz,
its feedback ratio is `15.5 < 16`, and it is not rejected — the source's
guard is `feedback_ms < 15`, not `< 16` — so a plan whose feedback ratio is
below 16 is emitted, refuting the claimed 16..90 band. -/
theorem scenarioA_band_counterexample :
    (⟨4, 620000000, 31/2, false⟩ : PlanStep) ∈ scenarioA 40000000 155000000 ∧
    (31/2 : ℚ) < 16 := by
  have hinit : initialOutputMS 155000000 = 6 := by with_unfolding_all decide
  constructor
  · show (⟨4, 620000000, 31/2, false⟩ : PlanStep) ∈
      scenarioA_loop 40000000 155000000 (initialOutputMS 155000000)
    rw [hinit]
    norm_num [scenarioA_loop, scenarioA_loopF, SI5351_MIN_VCO_FREQ]
  · norm_num

/-- C4 (amended: the legal feedback band enforced by the code is 15 to 90,
not 16 to 90): in scenario A every searched candidate is rejected — logged
and skipped, with the loop advancing to the next candidate — exactly when its
feedback ratio `f_vco / xtal` is below 15 or above 90, and every emitted plan
has feedback ratio within `[15, 90]`. -/
theorem scenarioA_band (xtal r : ℚ) (ms : ℕ) (st : PlanStep)
    (hst : st ∈ scenarioA_loop xtal r ms) :
    st.fb = r * (st.ms : ℚ) / xtal ∧
    (st.rejected = true ↔ (st.fb < 15 ∨ 90 < st.fb)) ∧
    (st.rejected = false → 15 ≤ st.fb ∧ st.fb ≤ 90) := by
  obtain ⟨h1, h2⟩ := scenarioA_loopF_band xtal r (ms + 1) ms st hst
  refine ⟨h1, h2, ?_⟩
  intro hf
  have hnot : ¬ (st.fb < 15 ∨ 90 < st.fb) := by
    intro hcon
    have hbad := h2.mpr hcon
    rw [hf] at hbad
    exact Bool.false_ne_true hbad
  push_neg at hnot
  exact hnot

/-- C4 (witness): the amended statement applied to the first candidate of the
run with `xtal = 40 MHz`, `r_clk0 = 155 MHz` (candidate 6, feedback ratio
`93/4 = 23.25`, emitted). -/
theorem scenarioA_band_witness :
    (⟨6, 930000000, 93/4, false⟩ : PlanStep).fb =
        155000000 * (((⟨6, 930000000, 93/4, false⟩ : PlanStep).ms : ℕ) : ℚ) / 40000000 ∧
    ((⟨6, 930000000, 93/4, false⟩ : PlanStep).rejected = true ↔
      ((⟨6, 930000000, 93/4, false⟩ : PlanStep).fb < 15 ∨
        90 < (⟨6, 930000000, 93/4, false⟩ : PlanStep).fb)) ∧
    ((⟨6, 930000000, 93/4, false⟩ : PlanStep).rejected = false →
      15 ≤ (⟨6, 930000000, 93/4, false⟩ : PlanStep).fb ∧
        (⟨6, 930000000, 93/4, false⟩ : PlanStep).fb ≤ 90) :=
  scenarioA_band 40000000 155000000 (initialOutputMS 155000000) ⟨6, 930000000, 93/4, false⟩
    (by
      have hinit : initialOutputMS 155000000 = 6 := by with_unfolding_all decide
      rw [hinit]
      norm_num [scenarioA_loop, scenarioA_loopF, SI5351_MIN_VCO_FREQ])

/-- C5 (code bug, evaluation at the failing input): for `clks[0] = 5000` Hz
the conditioning loop doubles EIGHT times — the guard `rdiv <= 7` still admits
the pass that raises `rdiv` from 7 to 8 — ending with `rdiv = 8` (an R-divider
exponent outside 0..7, i.e. `1 << 8 = 256`, not a valid Si5351 R divider) and
`r_clk0 = 1.28 MHz`, so the fatal `r_clk0 < 1e6` check does NOT fire, even
though 7 doublings only reach 640 kHz < 1 MHz: per the claim (and the spec's
0..7 exponent range) this input should have been a fatal input error. -/
theorem rdiv_eight_doublings :
    conditionClk0 5000 = (8, 1280000) ∧
    (5000 : ℚ) * 2 ^ 7 < 1000000 ∧
    clk0TooLow 5000 = false := by
  refine ⟨?_, by norm_num, ?_⟩
  · norm_num [conditionClk0, rdivGo]
  · norm_num [clk0TooLow, conditionClk0, rdivGo]

/-- C10: the argument validation of `main` enforces only the upper bound
`argc > MAX_CLOCKS + 2`, i.e. it rejects exactly the invocations passing more
than 4 frequency arguments (program name + reference + more than 3 clocks);
an invocation with a reference frequency and zero clock arguments
(`argc = 2`) is not rejected, `nclks` becomes 0, and line 61 still reads the
never-parsed slot `clks[0]` — its uninitialized content, modelled by the
explicit `uninit` valuation. -/
theorem args_validation (argc : ℕ) (argv uninit : ℕ → ℚ) :
    (tooManyArgs argc = true ↔ 5 < argc) ∧
    tooManyArgs 2 = false ∧
    nclks 2 = 0 ∧
    clk0Input argv 2 uninit = uninit 0 := by
  refine ⟨?_, by decide, by decide, ?_⟩
  · simp [tooManyArgs, MAX_CLOCKS]
  · simp [clk0Input, clksAfterParse]

/-- C10 (witness): the statement applied at `argc = 6`, constant argument
vectors; in particular `tooManyArgs 6 = true` follows. -/
theorem args_validation_witness :
    ((tooManyArgs 6 = true ↔ 5 < 6) ∧
      tooManyArgs 2 = false ∧
      nclks 2 = 0 ∧
      clk0Input (fun _ => 0) 2 (fun _ => 0) = (fun _ => (0 : ℚ)) 0) ∧
    tooManyArgs 6 = true :=
  ⟨args_validation 6 (fun _ => 0) (fun _ => 0),
    (args_validation 6 (fun _ => 0) (fun _ => 0)).1.mpr (by norm_num)⟩

end Si5351
